import Mathlib

/-!
Verification of the image-URL resolution pipeline (`ImageProcessor` in
`src/lib/image-processor.ts`).

The embedding is shallow: every method of the class becomes a total Lean
function over `String` / `List Char`.  Network effects are captured by an
explicit oracle giving the outcome of each `fetch` attempt; the platform
builtins used by the source (`new URL`, `String.prototype.trim`,
`encodeURIComponent`, `fetch`) are modelled as executable Lean functions
whose doc comments state the simplifications made.
-/

namespace ImgPipe

/-- Boolean test that `p` is a prefix of `l` (char-by-char equality). -/
def isPre : List Char → List Char → Bool
  | [], _ => true
  | _ :: _, [] => false
  | a :: as, b :: bs => a = b && isPre as bs

/-- Boolean test that the pattern `p` occurs as a contiguous substring of `l`.
Models the JavaScript `String.prototype.includes`. -/
def hasInfix (l p : List Char) : Bool :=
  match l with
  | [] => p.isEmpty
  | _ :: t => isPre p l || hasInfix t p

/-- `includes` on strings: `stringIncludes s sub` models `s.includes(sub)`. -/
def stringIncludes (s sub : String) : Bool :=
  hasInfix s.toList sub.toList

/-- Boolean test that `p` is a suffix of `l`. -/
def isSuf (l p : List Char) : Bool :=
  isPre p.reverse l.reverse

/-- Code points the JavaScript `String.prototype.trim` removes: WhiteSpace
(tab, VT, FF, space, NBSP, ZWNBSP, Unicode space separators) and
LineTerminator (LF, CR, LS, PS). -/
def jsWhite (c : Char) : Bool :=
  c.toNat = 0x9 || c.toNat = 0xA || c.toNat = 0xB || c.toNat = 0xC ||
  c.toNat = 0xD || c.toNat = 0x20 || c.toNat = 0xA0 || c.toNat = 0x1680 ||
  (0x2000 ≤ c.toNat && c.toNat ≤ 0x200A) || c.toNat = 0x2028 ||
  c.toNat = 0x2029 || c.toNat = 0x202F || c.toNat = 0x205F ||
  c.toNat = 0x3000 || c.toNat = 0xFEFF

/-- Model of `String.prototype.trim`: strip `jsWhite` characters from both
ends. -/
def jsTrim (s : String) : String :=
  String.mk (((s.toList.dropWhile jsWhite).reverse.dropWhile jsWhite).reverse)

/-- First stage of WHATWG URL parsing on the raw input: remove leading and
trailing C0-control-or-space characters, then remove every tab, LF and CR. -/
def urlStrip (l : List Char) : List Char :=
  (((l.dropWhile (fun c => c.toNat ≤ 0x20)).reverse.dropWhile
      (fun c => c.toNat ≤ 0x20)).reverse).filter
    (fun c => !(c.toNat = 0x9 || c.toNat = 0xA || c.toNat = 0xD))

/-- Forbidden host code points of the WHATWG URL standard (plus `%`, which is
forbidden in domains after percent-decoding; we do not model decoding, so a
raw `%` is rejected). -/
def okHostChar (c : Char) : Bool :=
  !(c.toNat ≤ 0x1F) && c.toNat ≠ 0x7F &&
  c ≠ ' ' && c ≠ '#' && c ≠ '%' && c ≠ '/' && c ≠ ':' && c ≠ '<' &&
  c ≠ '>' && c ≠ '?' && c ≠ '@' && c ≠ '[' && c ≠ '\\' && c ≠ ']' &&
  c ≠ '^' && c ≠ '|'

/-- Decimal value of a digit list (used for the port bound check). -/
def digitsToNat (l : List Char) : Nat :=
  l.foldl (fun acc c => acc * 10 + (c.toNat - '0'.toNat)) 0

/-- Validity of the host-and-port segment of an authority (everything after
the last `@`).  Bracketed IPv6 hosts are modelled loosely (nonempty bracket
content made of hex digits, `:` and `.`); other hosts must be nonempty,
contain no forbidden host character, and any port must be all digits and at
most 65535. -/
def validHostPort (hp : List Char) : Bool :=
  match hp with
  | [] => false
  | '[' :: rest =>
      let inner := rest.takeWhile (fun c => c ≠ ']')
      let after := rest.drop (inner.length)
      (!inner.isEmpty) &&
      inner.all (fun c => c.isDigit || ('a' ≤ c && c ≤ 'f') ||
        ('A' ≤ c && c ≤ 'F') || c = ':' || c = '.') &&
      (match after with
       | ']' :: [] => true
       | ']' :: ':' :: p => p.all Char.isDigit && digitsToNat p ≤ 65535
       | _ => false)
  | _ =>
      let host := hp.takeWhile (fun c => c ≠ ':')
      let port := hp.drop host.length
      (!host.isEmpty) && host.all okHostChar &&
      (match port with
       | [] => true
       | ':' :: p => p.all Char.isDigit && digitsToNat p ≤ 65535
       | _ => false)

/-- The host-and-port part of an authority: everything after the last `@`
(the WHATWG parser treats everything up to the last `@` as userinfo). -/
def afterLastAt (auth : List Char) : List Char :=
  (auth.reverse.takeWhile (fun c => c ≠ '@')).reverse

/-- Authority validity over the characters following the scheme: for a
special scheme, all leading `/` and `\` are skipped, the authority extends to
the first `/`, `\`, `?` or `#`, and its host-and-port part must be valid. -/
def validAfterScheme (l : List Char) : Bool :=
  let rest := l.dropWhile (fun c => c = '/' || c = '\\')
  let auth := rest.takeWhile (fun c => !(c = '/' || c = '\\' || c = '?' || c = '#'))
  validHostPort (afterLastAt auth)

/-- Model of the test performed by the source `isValidUrl`: `new URL(url)`
succeeds and `urlObj.protocol` is `http:` or `https:`.  Follows the WHATWG
URL parser: strip the input, match the (case-insensitive) scheme, skip the
slashes, then parse authority, host and port.  Simplifications: no IDNA /
punycode mapping of non-ASCII hosts, no percent-decoding inside hosts, no
ends-in-a-number IPv4 reparse, and a loose IPv6 check; the paths, queries and
fragments never make parsing fail, exactly as in the standard.  Inputs whose
scheme is not `http` / `https` yield `false`, whether or not they parse. -/
def validCore (l : List Char) : Bool :=
  let l := urlStrip l
  let low := l.map Char.toLower
  if isPre "https:".toList low then validAfterScheme (l.drop 6)
  else if isPre "http:".toList low then validAfterScheme (l.drop 5)
  else false

/-- Characters that `encodeURIComponent` leaves unescaped:
`A-Z` (65-90), `a-z` (97-122), `0-9` (48-57) and `- _ . ! ~ * ' ( )`. -/
def jsEncSafe (c : Char) : Bool :=
  (65 ≤ c.toNat && c.toNat ≤ 90) || (97 ≤ c.toNat && c.toNat ≤ 122) ||
  (48 ≤ c.toNat && c.toNat ≤ 57) ||
  c = '-' || c = '_' || c = '.' || c = '!' || c = '~' || c = '*' ||
  c = '\'' || c = '(' || c = ')'

/-- Uppercase hexadecimal digit (only applied to values below 16). -/
def hexDigit (n : Nat) : Char :=
  match n with
  | 0 => '0' | 1 => '1' | 2 => '2' | 3 => '3' | 4 => '4'
  | 5 => '5' | 6 => '6' | 7 => '7' | 8 => '8' | 9 => '9'
  | 10 => 'A' | 11 => 'B' | 12 => 'C' | 13 => 'D' | 14 => 'E'
  | 15 => 'F' | _ => '0'

/-- UTF-8 bytes of a Unicode scalar value. -/
def utf8Bytes (c : Char) : List Nat :=
  let v := c.toNat
  if v < 0x80 then [v]
  else if v < 0x800 then [0xC0 + v / 64, 0x80 + v % 64]
  else if v < 0x10000 then
    [0xE0 + v / 4096, 0x80 + (v / 64) % 64, 0x80 + v % 64]
  else
    [0xF0 + v / 262144, 0x80 + (v / 4096) % 64, 0x80 + (v / 64) % 64,
     0x80 + v % 64]

/-- Percent-escape of one byte, uppercase hex as emitted by
`encodeURIComponent`. -/
def pctByte (b : Nat) : List Char :=
  ['%', hexDigit (b / 16), hexDigit (b % 16)]

/-- Character-level model of `encodeURIComponent`: unreserved characters pass
through, every other character is replaced by the percent-escapes of its
UTF-8 bytes.  (Lean strings contain no lone surrogates, so the throwing case
of the builtin cannot arise.) -/
def encCore : List Char → List Char
  | [] => []
  | c :: cs =>
      (if jsEncSafe c then [c] else (utf8Bytes c).flatMap pctByte) ++ encCore cs

/-- `encodeURIComponent` on strings. -/
def encodeURIComponent (s : String) : String :=
  String.mk (encCore s.toList)

/-! ## The fetch capability

A probe attempt either throws (network error, abort on timeout, or an invalid
URL handed to `fetch`) or yields a response with a success flag
(`response.ok`) and an optional `content-type` header. -/

/-- Outcome of one `fetch` attempt as observed by the prober. -/
inductive FetchOutcome where
  | threw : FetchOutcome
  | status (ok : Bool) (contentType : Option String) : FetchOutcome
  deriving Repr, DecidableEq

/-- The network oracle: for a URL and an attempt number (1-based), the
outcome of that `fetch` attempt. -/
def Oracle : Type := String → Nat → FetchOutcome

/-- Model of calling `fetch` on a URL: `fetch` rejects (throws) whenever its
URL fails to parse as an absolute `http(s)` URL; otherwise the network
decides, which the oracle represents. -/
def fetchModel (url : String) (attempt : Nat) (o : Oracle) : FetchOutcome :=
  if validCore url.toList then o url attempt else FetchOutcome.threw

/-! ## The `ImageProcessor` class (`src/lib/image-processor.ts`) -/

/-- The `processingMethod` union type of `ImageProcessingResult`. -/
inductive ProcessingMethod where
  | original : ProcessingMethod
  | converted : ProcessingMethod
  | proxy : ProcessingMethod
  | fallback : ProcessingMethod
  deriving Repr, DecidableEq

/-- The `ImageProcessingResult` interface.  `error?` becomes an
`Option String`. -/
structure ImageProcessingResult where
  processedUrl : String
  isValid : Bool
  originalUrl : String
  processingMethod : ProcessingMethod
  error : Option String
  deriving Repr, DecidableEq

/-- `ImageProcessor.FALLBACK_IMAGE`. -/
def FALLBACK_IMAGE : String :=
  "https://via.placeholder.com/400x400/cccccc/666666?text=Product+Image"

/-- `ImageProcessor.MAX_RETRIES`. -/
def MAX_RETRIES : Nat := 3

/-- `ImageProcessor.isValidUrl`: `new URL(url)` succeeds and the protocol is
`http:` or `https:` (see `validCore`). -/
def isValidUrl (url : String) : Bool :=
  validCore url.toList

/-- One run of the prober records the boolean it returned, how many `fetch`
calls it made, and the total milliseconds spent in backoff waits. -/
structure ProbeRun where
  accessible : Bool
  calls : Nat
  waitMs : Nat
  deriving Repr, DecidableEq

/-- `contentType?.startsWith('image/') === true` on the optional header. -/
def isImageCT : Option String → Bool
  | none => false
  | some ct => isPre "image/".toList ct.toList

/-- The retry loop of `checkImageAccessibility`, structured on the number of
remaining iterations (`remaining` starts at `MAX_RETRIES` with `attempt = 1`).
A successful status returns `contentType.startsWith('image/')` at once; a
non-success status retries with no wait; a throw on the last attempt returns
`false`, and on earlier attempts waits `1000 * attempt` ms and retries.
Falling out of the loop returns `false`. -/
def checkLoop (url : String) (o : Oracle) :
    Nat → Nat → Nat → Nat → ProbeRun
  | 0, _, calls, wait => ⟨false, calls, wait⟩
  | remaining + 1, attempt, calls, wait =>
      match fetchModel url attempt o with
      | FetchOutcome.status true ct => ⟨isImageCT ct, calls + 1, wait⟩
      | FetchOutcome.status false _ =>
          checkLoop url o remaining (attempt + 1) (calls + 1) wait
      | FetchOutcome.threw =>
          if attempt = MAX_RETRIES then ⟨false, calls + 1, wait⟩
          else checkLoop url o remaining (attempt + 1) (calls + 1)
            (wait + 1000 * attempt)

/-- `ImageProcessor.checkImageAccessibility`: URLs containing `localhost` or
`127.0.0.1` skip the check and count as accessible with no fetch; otherwise
the retry loop runs for up to `MAX_RETRIES` attempts. -/
def checkImageAccessibility (url : String) (o : Oracle) : ProbeRun :=
  if stringIncludes url "localhost" || stringIncludes url "127.0.0.1" then
    ⟨true, 0, 0⟩
  else checkLoop url o MAX_RETRIES 1 0 0

/-- `ImageProcessor.isAmazonImage`. -/
def isAmazonImage (url : String) : Bool :=
  stringIncludes url "amazon.com" ||
  stringIncludes url "ssl-images-amazon.com" ||
  stringIncludes url "media-amazon.com"

/-- Line terminators that the regexp `.` metacharacter never matches. -/
def isLineTerm (c : Char) : Bool :=
  c = '\n' || c = '\r' || c.toNat = 0x2028 || c.toNat = 0x2029

/-- Lazy completion of the pattern `\._.*?_\.`: given the characters after
the initial `._`, find the shortest gap (free of line terminators) ending in
`_.` and return the characters after that `_.`. -/
def lazyTail : List Char → Option (List Char)
  | '_' :: '.' :: rest => some rest
  | c :: cs => if isLineTerm c then none else lazyTail cs
  | [] => none

/-- `url.replace(/\._.*?_\./, '.')` scanning: leftmost match start, lazy gap;
returns the list with the first match replaced by `.`, or `none` when the
pattern does not occur. -/
def dotUnderScan : List Char → Option (List Char)
  | [] => none
  | '.' :: cs =>
      match cs with
      | '_' :: rest =>
          (match lazyTail rest with
           | some after => some ('.' :: after)
           | none => (dotUnderScan cs).map (fun t => '.' :: t))
      | _ => (dotUnderScan cs).map (fun t => '.' :: t)
  | c :: cs => (dotUnderScan cs).map (fun t => c :: t)

/-- `url.replace(/\._.*?_\./, '.')`. -/
def replaceDotUnder (l : List Char) : List Char :=
  (dotUnderScan l).getD l

/-- `url.replace(/\.webp$/, '.jpg')`. -/
def replaceWebpSuffix (l : List Char) : List Char :=
  if isSuf l ".webp".toList then (l.reverse.drop 5).reverse ++ ".jpg".toList
  else l

/-- Remove the first occurrence of the literal pattern `pat`
(`replace(/lit/, '')`). -/
def removeFirstLit (pat : List Char) : List Char → List Char
  | [] => []
  | c :: cs =>
      if isPre pat (c :: cs) then (c :: cs).drop pat.length
      else c :: removeFirstLit pat cs

/-- Length of a match of `ab\d+_` anchored at the head of `l` (two literal
characters, then one or more digits, then an underscore), if any. -/
def numTagLen (a b : Char) (l : List Char) : Option Nat :=
  match l with
  | x :: y :: rest =>
      if x = a ∧ y = b then
        let ds := rest.takeWhile Char.isDigit
        if ds.length > 0 ∧ isPre ['_'] (rest.drop ds.length) then
          some (2 + ds.length + 1)
        else none
      else none
  | _ => none

/-- Remove the first occurrence of `ab\d+_` (`replace(/ab\d+_/, '')`). -/
def removeFirstNumTag (a b : Char) : List Char → List Char
  | [] => []
  | c :: cs =>
      match numTagLen a b (c :: cs) with
      | some n => (c :: cs).drop n
      | none => c :: removeFirstNumTag a b cs

/-- `transformedUrl.match(/\.(jpg|jpeg|png|gif)$/i) !== null`. -/
def hasImageExt (l : List Char) : Bool :=
  let low := l.map Char.toLower
  isSuf low ".jpg".toList || isSuf low ".jpeg".toList ||
  isSuf low ".png".toList || isSuf low ".gif".toList

/-- The six chained `replace` calls of `transformAmazonImageUrl`, in source
order. -/
def amazonStripped (url : String) : List Char :=
  removeFirstNumTag 'S' 'Y'
    (removeFirstNumTag 'S' 'X'
      (removeFirstNumTag 'Q' 'L'
        (removeFirstLit "FMwebp_".toList
          (replaceWebpSuffix (replaceDotUnder url.toList)))))

/-- `ImageProcessor.transformAmazonImageUrl`: strip the modifiers, then
append `.jpg` when no recognized image extension remains.  (The surrounding
try/catch is dead: none of the string operations throws.) -/
def transformAmazonImageUrl (url : String) : String :=
  let t := amazonStripped url
  String.mk (if hasImageExt t then t else t ++ ".jpg".toList)

/-- `ImageProcessor.createProxyUrl`. -/
def createProxyUrl (originalUrl : String) : String :=
  "https://images.weserv.nl/?url=" ++ encodeURIComponent originalUrl ++
    "&output=jpg&q=80&w=800&h=800&fit=inside"

/-! ## The orchestrator `processImageUrl`

State passing: alongside each result we thread the total number of `fetch`
calls made, so that claims about network activity are statable. -/

/-- The guard `!imageUrl || imageUrl.trim() === ''`. -/
def emptyInput (imageUrl : String) : Bool :=
  imageUrl = "" || jsTrim imageUrl = ""

/-- The reassignment of `originalUrl` before step 1: trim, and resolve a
leading `/` against `baseUrl` (defaulting to `http://localhost:3000`). -/
def resolve (imageUrl : String) (baseUrl : Option String) : String :=
  let trimmed := jsTrim imageUrl
  if isPre ['/'] trimmed.toList then
    (baseUrl.getD "http://localhost:3000") ++ trimmed
  else trimmed

/-- Steps 4 and 5 of the try block: probe the proxy URL, else fall back. -/
def proxyStep (originalUrl : String) (o : Oracle) (calls : Nat) :
    ImageProcessingResult × Nat :=
  let proxyUrl := createProxyUrl originalUrl
  let p := checkImageAccessibility proxyUrl o
  if p.accessible then
    (⟨proxyUrl, true, originalUrl, ProcessingMethod.proxy, none⟩,
     calls + p.calls)
  else
    (⟨FALLBACK_IMAGE, true, originalUrl, ProcessingMethod.fallback,
      some "Original image not accessible, using fallback"⟩, calls + p.calls)

/-- Step 3 of the try block: the Amazon rewrite attempt, falling through to
the proxy step. -/
def amazonStep (originalUrl : String) (o : Oracle) (calls : Nat) :
    ImageProcessingResult × Nat :=
  if isAmazonImage originalUrl then
    let transformedUrl := transformAmazonImageUrl originalUrl
    if transformedUrl ≠ originalUrl then
      let p := checkImageAccessibility transformedUrl o
      if p.accessible then
        (⟨transformedUrl, true, originalUrl, ProcessingMethod.converted,
          none⟩, calls + p.calls)
      else proxyStep originalUrl o (calls + p.calls)
    else proxyStep originalUrl o calls
  else proxyStep originalUrl o calls

/-- The try block of `processImageUrl`, after `originalUrl` has been
resolved: the explicit `throw new Error('Invalid URL format')` is the
`Except.error` case; otherwise the steps run in order. -/
def tryBody (originalUrl : String) (o : Oracle) :
    Except String (ImageProcessingResult × Nat) :=
  if !isValidUrl originalUrl then Except.error "Invalid URL format"
  else
    let p := checkImageAccessibility originalUrl o
    if p.accessible then
      Except.ok
        (⟨originalUrl, true, originalUrl, ProcessingMethod.original, none⟩,
         p.calls)
    else Except.ok (amazonStep originalUrl o p.calls)

/-- The catch block of `processImageUrl`: if the (reassigned) `originalUrl`
is still well-formed, return it leniently as `original`; otherwise return
the fallback image.  No fetch call happens here. -/
def catchBlock (originalUrl : String) (e : String) :
    ImageProcessingResult × Nat :=
  if isValidUrl originalUrl then
    (⟨originalUrl, true, originalUrl, ProcessingMethod.original,
      some ("Processing failed but using original URL: " ++ e)⟩, 0)
  else
    (⟨FALLBACK_IMAGE, true, originalUrl, ProcessingMethod.fallback,
      some e⟩, 0)

/-- `ImageProcessor.processImageUrl`, instrumented with the number of fetch
calls made.  The function is total: every error of the try block is consumed
by the catch block. -/
def processImageUrlRun (imageUrl : String) (baseUrl : Option String)
    (o : Oracle) : ImageProcessingResult × Nat :=
  if emptyInput imageUrl then
    (⟨FALLBACK_IMAGE, true, imageUrl, ProcessingMethod.fallback,
      some "Empty image URL provided"⟩, 0)
  else
    let originalUrl := resolve imageUrl baseUrl
    match tryBody originalUrl o with
    | Except.ok rn => rn
    | Except.error e => catchBlock originalUrl e

/-- `ImageProcessor.processImageUrl` (the returned result). -/
def processImageUrl (imageUrl : String) (baseUrl : Option String)
    (o : Oracle) : ImageProcessingResult :=
  (processImageUrlRun imageUrl baseUrl o).1

/-- `ImageProcessor.processAvatarImageUrl` delegates to `processImageUrl`. -/
def processAvatarImageUrl (imageUrl : String) (baseUrl : Option String)
    (o : Oracle) : ImageProcessingResult :=
  processImageUrl imageUrl baseUrl o

/-- `ImageProcessor.processMultipleImageUrls`: one result per URL, in order.
`Promise.allSettled` never observes a rejection because `processImageUrl` is
total, so the rejected branch of the source is unreachable and the batch is
the pointwise map. -/
def processMultipleImageUrls (urls : List String) (baseUrl : Option String)
    (o : Oracle) : List ImageProcessingResult :=
  urls.map (fun url => processImageUrl url baseUrl o)

/-- The priority scan of `getBestImageUrl`: for each method in order, return
the first result carrying that method (and `isValid`), if any. -/
def pickByPriority : List ProcessingMethod → List ImageProcessingResult →
    Option ImageProcessingResult
  | [], _ => none
  | m :: ms, results =>
      match results.find? (fun r =>
        decide (r.processingMethod = m) && r.isValid) with
      | some r => some r
      | none => pickByPriority ms results

/-- The priority order `['original', 'converted', 'proxy', 'fallback']`. -/
def priorityOrder : List ProcessingMethod :=
  [ProcessingMethod.original, ProcessingMethod.converted,
   ProcessingMethod.proxy, ProcessingMethod.fallback]

/-- `ImageProcessor.getBestImageUrl`: empty input yields a fallback result;
otherwise process all URLs and select by method priority, defaulting to
`results[0]` (the empty default branch is unreachable because `urls` is
nonempty there). -/
def getBestImageUrl (urls : List String) (baseUrl : Option String)
    (o : Oracle) : ImageProcessingResult :=
  if urls.length = 0 then
    ⟨FALLBACK_IMAGE, true, "", ProcessingMethod.fallback,
     some "No URLs provided"⟩
  else
    let results := processMultipleImageUrls urls baseUrl o
    match pickByPriority priorityOrder results with
    | some r => r
    | none =>
        match results with
        | r :: _ => r
        | [] =>
            ⟨FALLBACK_IMAGE, true, "", ProcessingMethod.fallback,
             some "No URLs provided"⟩

/-- Rank of a processing method in the priority order (0 is best). -/
def priIdx : ProcessingMethod → Nat
  | ProcessingMethod.original => 0
  | ProcessingMethod.converted => 1
  | ProcessingMethod.proxy => 2
  | ProcessingMethod.fallback => 3

/-! ## Concrete network behaviours used in scenarios -/

/-- Every fetch attempt throws (network down / every attempt times out). -/
def allFail : Oracle := fun _ _ => FetchOutcome.threw

/-- Every fetch attempt succeeds but reports an HTML document. -/
def okHtml : Oracle := fun _ _ => FetchOutcome.status true (some "text/html")

/-- Every fetch attempt yields a non-success HTTP status. -/
def status404 : Oracle := fun _ _ => FetchOutcome.status false none

/-- Only the proxy service answers with an image; every direct fetch
throws. -/
def proxyOnly : Oracle := fun url _ =>
  if isPre "https://images.weserv.nl/".toList url.toList then
    FetchOutcome.status true (some "image/jpeg")
  else FetchOutcome.threw

/-! ## Structural lemmas about the result records -/

/-- Every result built by the proxy and fallback steps has `isValid = true`. -/
lemma proxyStep_isValid (u : String) (o : Oracle) (c : Nat) :
    ((proxyStep u o c).1).isValid = true := by
  unfold proxyStep
  dsimp only
  split <;> rfl

/-- Every result built by the Amazon rewrite step has `isValid = true`. -/
lemma amazonStep_isValid (u : String) (o : Oracle) (c : Nat) :
    ((amazonStep u o c).1).isValid = true := by
  unfold amazonStep
  split
  · dsimp only
    split
    · split
      · rfl
      · exact proxyStep_isValid _ _ _
    · exact proxyStep_isValid _ _ _
  · exact proxyStep_isValid _ _ _

/-- Every result the try block returns has `isValid = true`. -/
lemma tryBody_ok_isValid (v : String) (o : Oracle)
    (rn : ImageProcessingResult × Nat) (h : tryBody v o = Except.ok rn) :
    (rn.1).isValid = true := by
  unfold tryBody at h
  split at h
  · cases h
  · dsimp only at h
    split at h
    · cases h; rfl
    · cases h; exact amazonStep_isValid _ _ _

/-- `processImageUrl` always returns a result with `isValid = true`. -/
lemma processImageUrl_isValid (u : String) (b : Option String) (o : Oracle) :
    (processImageUrl u b o).isValid = true := by
  unfold processImageUrl processImageUrlRun
  split
  · rfl
  · dsimp only
    split
    · next rn heq => exact tryBody_ok_isValid _ _ _ heq
    · unfold catchBlock
      split <;> rfl

/-- The priority scan returns an element of the scanned list. -/
lemma pickByPriority_mem (ms : List ProcessingMethod)
    (rs : List ImageProcessingResult) (r : ImageProcessingResult)
    (h : pickByPriority ms rs = some r) : r ∈ rs := by
  induction ms with
  | nil => cases h
  | cons m ms ih =>
      unfold pickByPriority at h
      split at h
      · cases h
        exact List.mem_of_find?_eq_some (by assumption)
      · exact ih h

/-- Claim C8: empty or whitespace-only input yields the immediate fallback
result with zero fetch calls. -/
theorem claim8_empty_input_immediate_fallback (u : String)
    (b : Option String) (o : Oracle) (h : emptyInput u = true) :
    processImageUrlRun u b o =
      (⟨FALLBACK_IMAGE, true, u, ProcessingMethod.fallback,
        some "Empty image URL provided"⟩, 0) := by
  unfold processImageUrlRun
  rw [h]
  rfl

/-- Witness for C8 at the whitespace-only input `"   "`. -/
theorem claim8_witness :
    emptyInput "   " = true ∧
    processImageUrlRun "   " none allFail =
      (⟨FALLBACK_IMAGE, true, "   ", ProcessingMethod.fallback,
        some "Empty image URL provided"⟩, 0) :=
  ⟨by decide, claim8_empty_input_immediate_fallback "   " none allFail
    (by decide)⟩

/-- Claim C9: on the documented Amazon sample the rewriter removes the
size, quality and format modifiers and ends in a recognized extension; and
whenever the stripped URL lacks a recognized extension, `.jpg` is
appended. -/
theorem claim9_amazon_rewrite :
    (transformAmazonImageUrl
        "https://images-na.ssl-images-amazon.com/images/I/abc._SX300_QL70_FMwebp_.jpg"
      = "https://images-na.ssl-images-amazon.com/images/I/abc.jpg") ∧
    stringIncludes
      (transformAmazonImageUrl
        "https://images-na.ssl-images-amazon.com/images/I/abc._SX300_QL70_FMwebp_.jpg")
      "_SX300_" = false ∧
    stringIncludes
      (transformAmazonImageUrl
        "https://images-na.ssl-images-amazon.com/images/I/abc._SX300_QL70_FMwebp_.jpg")
      "_QL70_" = false ∧
    stringIncludes
      (transformAmazonImageUrl
        "https://images-na.ssl-images-amazon.com/images/I/abc._SX300_QL70_FMwebp_.jpg")
      "FMwebp" = false ∧
    hasImageExt
      (transformAmazonImageUrl
        "https://images-na.ssl-images-amazon.com/images/I/abc._SX300_QL70_FMwebp_.jpg").toList
      = true ∧
    ∀ url : String, hasImageExt (amazonStripped url) = false →
      transformAmazonImageUrl url =
        String.mk (amazonStripped url ++ ".jpg".toList) := by
  refine ⟨by decide, by decide, by decide, by decide, by decide, ?_⟩
  intro url h
  simp [transformAmazonImageUrl, h]

/-- Witness for the universally quantified part of C9 at a URL without a
recognized extension. -/
theorem claim9_witness :
    hasImageExt (amazonStripped "https://a.amazon.com/x") = false ∧
    transformAmazonImageUrl "https://a.amazon.com/x" =
      String.mk (amazonStripped "https://a.amazon.com/x" ++ ".jpg".toList) :=
  ⟨by decide, claim9_amazon_rewrite.2.2.2.2.2 "https://a.amazon.com/x"
    (by decide)⟩

/-- Claim C10: every result produced by `processImageUrl`,
`processMultipleImageUrls` and `getBestImageUrl` has `isValid = true`, on
every path. -/
theorem claim10_isValid_constant (u : String) (b : Option String)
    (o : Oracle) (urls : List String) (r : ImageProcessingResult) :
    (processImageUrl u b o).isValid = true ∧
    (r ∈ processMultipleImageUrls urls b o → r.isValid = true) ∧
    (getBestImageUrl urls b o).isValid = true := by
  have hmulti : ∀ x : ImageProcessingResult,
      x ∈ processMultipleImageUrls urls b o → x.isValid = true := by
    intro x hx
    rcases List.mem_map.mp hx with ⟨url, _, hurl⟩
    rw [← hurl]
    exact processImageUrl_isValid _ _ _
  refine ⟨processImageUrl_isValid _ _ _, hmulti r, ?_⟩
  unfold getBestImageUrl
  split
  · rfl
  · dsimp only
    split
    · next r' heq =>
        exact hmulti r' (pickByPriority_mem _ _ _ heq)
    · split
      · next r' rest heq =>
          exact hmulti r' (by rw [heq]; exact List.mem_cons_self _ _)
      · rfl

/-- Witness for C10 discharging the batch-membership hypothesis at a
singleton list. -/
theorem claim10_witness :
    (processImageUrl "a" none allFail).isValid = true ∧
    (processImageUrl "a" none allFail).isValid = true ∧
    (getBestImageUrl ["a"] none allFail).isValid = true := by
  have h := claim10_isValid_constant "a" none allFail ["a"]
    (processImageUrl "a" none allFail)
  exact ⟨h.1, h.2.1 (by simp [processMultipleImageUrls]), h.2.2⟩

/-- The catch block always records the failure in the `error` field. -/
lemma catchBlock_error_isSome (v e : String) :
    ((catchBlock v e).1).error.isSome = true := by
  unfold catchBlock
  split <;> rfl

/-- When the try block raises, the orchestrator returns the catch block's
result. -/
lemma run_catch (u : String) (b : Option String) (o : Oracle) (e : String)
    (h0 : emptyInput u = false)
    (he : tryBody (resolve u b) o = Except.error e) :
    processImageUrlRun u b o = catchBlock (resolve u b) e := by
  unfold processImageUrlRun
  simp only [h0, he]
  rfl

/-- A URL failing format validation makes the try block raise
`Invalid URL format`. -/
lemma tryBody_invalid (v : String) (o : Oracle)
    (hv : isValidUrl v = false) :
    tryBody v o = Except.error "Invalid URL format" := by
  unfold tryBody
  rw [hv]
  rfl

/-- Claim C2: `processImageUrl` is a total function into the result type
(it is a Lean `def`, so in particular it never throws), and every error the
try block raises is consumed by the catch block and encoded in the `error`
field of the returned result. -/
theorem claim2_total_error_in_data (u : String) (b : Option String)
    (o : Oracle) (e : String) (h0 : emptyInput u = false)
    (he : tryBody (resolve u b) o = Except.error e) :
    processImageUrlRun u b o = catchBlock (resolve u b) e ∧
    (processImageUrl u b o).error.isSome = true := by
  have hrun := run_catch u b o e h0 he
  refine ⟨hrun, ?_⟩
  unfold processImageUrl
  rw [hrun]
  exact catchBlock_error_isSome _ _

/-- Witness for C2 at the malformed input `"::"`, whose try block raises
`Invalid URL format`. -/
theorem claim2_witness :
    processImageUrlRun "::" none allFail =
      catchBlock (resolve "::" none) "Invalid URL format" ∧
    (processImageUrl "::" none allFail).error.isSome = true :=
  claim2_total_error_in_data "::" none allFail "Invalid URL format"
    (by decide) (by rfl)

/-- Counterexample to claim C7 as stated: the relative input `"/x"` is
non-empty and is not a well-formed absolute URL, yet the pipeline resolves
it against the default base and returns it as method `original`, not as the
fallback placeholder. -/
theorem claim7_counterexample :
    ("/x" ≠ "") ∧ isValidUrl "/x" = false ∧
    (processImageUrl "/x" none allFail).processingMethod =
      ProcessingMethod.original ∧
    (processImageUrl "/x" none allFail).processedUrl =
      "http://localhost:3000/x" ∧
    (processImageUrl "/x" none allFail).processedUrl ≠ FALLBACK_IMAGE := by
  refine ⟨by decide, by decide, by decide, by decide, by decide⟩

/-- Claim C7 amended: for every non-empty, non-whitespace-only input whose
trimmed form does not start with `/` (relative inputs are resolved against
the base origin instead) and is not a well-formed absolute http(s) URL,
`processImageUrl` returns `isValid = true`, the static fallback URL and
method `fallback`. -/
theorem claim7_amended (u : String) (b : Option String) (o : Oracle)
    (h0 : emptyInput u = false)
    (hrel : isPre ['/'] (jsTrim u).toList = false)
    (hv : isValidUrl (jsTrim u) = false) :
    processImageUrl u b o =
      ⟨FALLBACK_IMAGE, true, jsTrim u, ProcessingMethod.fallback,
       some "Invalid URL format"⟩ := by
  have hres : resolve u b = jsTrim u := by
    unfold resolve
    dsimp only
    rw [hrel]
    rfl
  have he : tryBody (resolve u b) o = Except.error "Invalid URL format" :=
    tryBody_invalid _ o (by rw [hres]; exact hv)
  unfold processImageUrl
  rw [run_catch u b o _ h0 he, hres]
  unfold catchBlock
  rw [hv]
  rfl

/-- Witness for the amended C7 at the malformed input `"notaurl"`. -/
theorem claim7_witness :
    processImageUrl "notaurl" none allFail =
      ⟨FALLBACK_IMAGE, true, jsTrim "notaurl", ProcessingMethod.fallback,
       some "Invalid URL format"⟩ :=
  claim7_amended "notaurl" none allFail (by decide) (by decide) (by decide)

/-! ## The prober: retry exhaustion and backoff (claims C4, C5) -/

/-- An attempt outcome counted as a failure by the prober: a throw (network
error or timeout) or a non-success HTTP status. -/
def isFailOutcome : FetchOutcome → Bool
  | FetchOutcome.threw => true
  | FetchOutcome.status true _ => false
  | FetchOutcome.status false _ => true

/-- Failure outcomes are throws or non-success statuses. -/
lemma isFail_iff (f : FetchOutcome) :
    isFailOutcome f = true ↔
      f = FetchOutcome.threw ∨ ∃ ct, f = FetchOutcome.status false ct := by
  cases f with
  | threw => simp [isFailOutcome]
  | status ok ct => cases ok <;> simp [isFailOutcome]

/-- A URL that is not local runs the retry loop. -/
lemma checkIA_not_local (url : String) (o : Oracle)
    (hl : (stringIncludes url "localhost" ||
           stringIncludes url "127.0.0.1") = false) :
    checkImageAccessibility url o = checkLoop url o MAX_RETRIES 1 0 0 := by
  unfold checkImageAccessibility
  rw [hl]
  rfl

/-- If all three attempts fail, the retry loop returns `false` after exactly
three fetch calls. -/
lemma checkLoop_all_fail (url : String) (o : Oracle)
    (h1 : isFailOutcome (fetchModel url 1 o) = true)
    (h2 : isFailOutcome (fetchModel url 2 o) = true)
    (h3 : isFailOutcome (fetchModel url 3 o) = true) :
    (checkLoop url o 3 1 0 0).accessible = false ∧
    (checkLoop url o 3 1 0 0).calls = 3 := by
  rcases (isFail_iff _).mp h1 with hf1 | ⟨ct1, hf1⟩ <;>
    rcases (isFail_iff _).mp h2 with hf2 | ⟨ct2, hf2⟩ <;>
      rcases (isFail_iff _).mp h3 with hf3 | ⟨ct3, hf3⟩ <;>
        simp [checkLoop, hf1, hf2, hf3, MAX_RETRIES]

/-- The retry loop makes at most `calls + remaining` fetch calls. -/
lemma checkLoop_calls_le (url : String) (o : Oracle) :
    ∀ remaining attempt calls wait,
      (checkLoop url o remaining attempt calls wait).calls ≤
        calls + remaining := by
  intro remaining
  induction remaining with
  | zero => intro a c w; simp [checkLoop]
  | succ n ih =>
      intro a c w
      unfold checkLoop
      cases fetchModel url a o with
      | threw =>
          dsimp only
          split
          · dsimp only; omega
          · have := ih (a + 1) (c + 1) (w + 1000 * a)
            omega
      | status ok ct =>
          cases ok with
          | true => dsimp only; omega
          | false =>
              dsimp only
              have := ih (a + 1) (c + 1) w
              omega

/-- Counterexample to claim C4 as stated: a success response carrying a
non-image content type ends the probe immediately after a single fetch call,
rather than exhausting all retry attempts. -/
theorem claim4_counterexample :
    checkImageAccessibility "https://example.com/x" okHtml =
      ⟨false, 1, 0⟩ ∧ (1 : Nat) ≠ MAX_RETRIES := by
  refine ⟨by decide, by decide⟩

/-- Claim C4 amended: a throwing attempt or a non-success status retries
until all `MAX_RETRIES` attempts are spent and then yields `false`; but a
success status whose content type is not an image returns `false` at once,
after the attempt on which it was observed. -/
theorem claim4_amended (url : String) (o : Oracle)
    (hl : (stringIncludes url "localhost" ||
           stringIncludes url "127.0.0.1") = false) :
    ((∀ a, 1 ≤ a → a ≤ MAX_RETRIES →
        isFailOutcome (fetchModel url a o) = true) →
      (checkImageAccessibility url o).accessible = false ∧
      (checkImageAccessibility url o).calls = MAX_RETRIES) ∧
    (∀ ct, fetchModel url 1 o = FetchOutcome.status true ct →
      isImageCT ct = false →
      checkImageAccessibility url o = ⟨false, 1, 0⟩) := by
  constructor
  · intro h
    rw [checkIA_not_local url o hl]
    exact checkLoop_all_fail url o (h 1 (by omega) (by decide))
      (h 2 (by omega) (by decide)) (h 3 (by omega) (by decide))
  · intro ct hf hi
    rw [checkIA_not_local url o hl]
    simp [checkLoop, MAX_RETRIES, hf, hi]

/-- Witness for the amended C4: with every attempt throwing, the probe of a
valid non-local URL fails after exactly three fetch calls. -/
theorem claim4_witness :
    (checkImageAccessibility "https://example.com/x" allFail).accessible
      = false ∧
    (checkImageAccessibility "https://example.com/x" allFail).calls
      = MAX_RETRIES :=
  (claim4_amended "https://example.com/x" allFail (by decide)).1
    (fun _ _ _ => rfl)

/-- Counterexample to claim C5 as stated: when every attempt fails with a
non-success HTTP status, the prober retries with no backoff wait at all, so
the claimed lower bound of 1s+2s of inter-attempt wait does not hold. -/
theorem claim5_counterexample :
    checkImageAccessibility "https://example.com/y" status404 =
      ⟨false, 3, 0⟩ ∧
    ¬(1000 + 2000 ≤
        (checkImageAccessibility "https://example.com/y" status404).waitMs) := by
  refine ⟨by decide, by decide⟩

/-- Claim C5 amended: the prober makes at most 3 fetch attempts, and when
every attempt throws (network error or timeout) it returns `false` after
exactly 3 attempts with backoff waits of 1s then 2s (total 3000 ms; no wait
follows the final attempt, and status failures retry without waiting).  The
function is total, so no exception escapes to the caller. -/
theorem claim5_amended (url : String) (o : Oracle) :
    (checkImageAccessibility url o).calls ≤ MAX_RETRIES ∧
    ((stringIncludes url "localhost" ||
      stringIncludes url "127.0.0.1") = false →
     (∀ a, 1 ≤ a → a ≤ MAX_RETRIES →
        fetchModel url a o = FetchOutcome.threw) →
     checkImageAccessibility url o = ⟨false, MAX_RETRIES, 3000⟩) := by
  constructor
  · unfold checkImageAccessibility
    split
    · decide
    · have := checkLoop_calls_le url o MAX_RETRIES 1 0 0
      omega
  · intro hl h
    rw [checkIA_not_local url o hl]
    simp [checkLoop, h 1 (by omega) (by decide), h 2 (by omega) (by decide),
      h 3 (by omega) (by decide), MAX_RETRIES]

/-- Witness for the amended C5: an all-throwing URL spends 1s+2s of backoff
across its three attempts. -/
theorem claim5_witness :
    (checkImageAccessibility "https://example.com/z" allFail).calls
      ≤ MAX_RETRIES ∧
    checkImageAccessibility "https://example.com/z" allFail =
      ⟨false, MAX_RETRIES, 3000⟩ :=
  ⟨(claim5_amended "https://example.com/z" allFail).1,
   (claim5_amended "https://example.com/z" allFail).2 (by decide)
     (fun _ _ _ => rfl)⟩

/-! ## Claim C3: what happens when a valid URL fails every probe -/

/-- Counterexample to claim C3 as stated: a format-valid URL whose every
accessibility probe (direct, rewritten, proxy) reports inaccessible gets the
static placeholder as `processedUrl`, not the original URL. -/
theorem claim3_counterexample :
    isValidUrl "https://example.com/img.png" = true ∧
    (checkImageAccessibility "https://example.com/img.png" allFail).accessible
      = false ∧
    (checkImageAccessibility
        (transformAmazonImageUrl "https://example.com/img.png")
        allFail).accessible = false ∧
    (checkImageAccessibility
        (createProxyUrl "https://example.com/img.png") allFail).accessible
      = false ∧
    processImageUrl "https://example.com/img.png" none allFail =
      ⟨FALLBACK_IMAGE, true, "https://example.com/img.png",
       ProcessingMethod.fallback,
       some "Original image not accessible, using fallback"⟩ ∧
    FALLBACK_IMAGE ≠ "https://example.com/img.png" := by
  exact ⟨by decide, by decide, by decide, by decide, by decide, by decide⟩

/-- Claim C3 amended: if the resolved URL passes format validation but the
direct, rewritten and proxy probes all report it inaccessible, the
orchestrator returns the static placeholder with method `fallback` (the
lenient original-URL path runs only from the catch block, which a mere probe
failure never reaches). -/
theorem claim3_amended (u : String) (b : Option String) (o : Oracle)
    (h0 : emptyInput u = false)
    (hv : isValidUrl (resolve u b) = true)
    (h1 : (checkImageAccessibility (resolve u b) o).accessible = false)
    (h2 : transformAmazonImageUrl (resolve u b) = resolve u b ∨
          (checkImageAccessibility (transformAmazonImageUrl (resolve u b))
            o).accessible = false)
    (h3 : (checkImageAccessibility (createProxyUrl (resolve u b))
            o).accessible = false) :
    processImageUrl u b o =
      ⟨FALLBACK_IMAGE, true, resolve u b, ProcessingMethod.fallback,
       some "Original image not accessible, using fallback"⟩ := by
  have hproxy : ∀ c, proxyStep (resolve u b) o c =
      (⟨FALLBACK_IMAGE, true, resolve u b, ProcessingMethod.fallback,
        some "Original image not accessible, using fallback"⟩,
       c + (checkImageAccessibility (createProxyUrl (resolve u b)) o).calls)
      := by
    intro c
    unfold proxyStep
    dsimp only
    rw [h3]
    rfl
  have hamazon : ∀ c, (amazonStep (resolve u b) o c).1 =
      ⟨FALLBACK_IMAGE, true, resolve u b, ProcessingMethod.fallback,
       some "Original image not accessible, using fallback"⟩ := by
    intro c
    unfold amazonStep
    split
    · dsimp only
      split
      · rcases h2 with h2 | h2
        · next hne => exact absurd h2 hne
        · rw [h2, hproxy]
          rfl
      · rw [hproxy]
    · rw [hproxy]
  have htb : tryBody (resolve u b) o =
      Except.ok (amazonStep (resolve u b) o
        (checkImageAccessibility (resolve u b) o).calls) := by
    unfold tryBody
    rw [hv]
    dsimp only
    rw [h1]
    rfl
  unfold processImageUrl processImageUrlRun
  rw [h0]
  dsimp only
  rw [htb]
  exact hamazon _

/-- Witness for the amended C3 at a concrete valid URL with every probe
failing. -/
theorem claim3_witness :
    processImageUrl "https://example.org/pic.png" none allFail =
      ⟨FALLBACK_IMAGE, true, resolve "https://example.org/pic.png" none,
       ProcessingMethod.fallback,
       some "Original image not accessible, using fallback"⟩ :=
  claim3_amended "https://example.org/pic.png" none allFail (by decide)
    (by decide) (by decide) (Or.inr (by decide)) (by decide)

/-! ## Claim C6: the priority selection of `getBestImageUrl` -/

/-- Every processing method is one of the four priority classes. -/
lemma method_cases (m : ProcessingMethod) :
    m = ProcessingMethod.original ∨ m = ProcessingMethod.converted ∨
    m = ProcessingMethod.proxy ∨ m = ProcessingMethod.fallback := by
  cases m <;> simp

/-- Every batch result has `isValid = true`. -/
lemma processMultiple_isValid (urls : List String) (b : Option String)
    (o : Oracle) :
    ∀ x ∈ processMultipleImageUrls urls b o, x.isValid = true := by
  intro x hx
  rcases List.mem_map.mp hx with ⟨url, _, hurl⟩
  rw [← hurl]
  exact processImageUrl_isValid _ _ _

/-- A failed `find?` on the method predicate means no valid element carries
that method. -/
lemma find?_none_method (rs : List ImageProcessingResult)
    (m : ProcessingMethod) (x : ImageProcessingResult) (hx : x ∈ rs)
    (hval : x.isValid = true)
    (h : rs.find? (fun y => decide (y.processingMethod = m) && y.isValid)
          = none) :
    x.processingMethod ≠ m := by
  have hno := List.find?_eq_none.mp h x hx
  intro hm
  apply hno
  simp [hm, hval]

/-- A successful `find?` on the method predicate returns an element carrying
that method. -/
lemma find?_some_method (rs : List ImageProcessingResult)
    (m : ProcessingMethod) (a : ImageProcessingResult)
    (h : rs.find? (fun y => decide (y.processingMethod = m) && y.isValid)
          = some a) :
    a.processingMethod = m := by
  have hp := List.find?_some h
  simp only [Bool.and_eq_true, decide_eq_true_eq] at hp
  exact hp.1

/-- The result selected by the priority scan has the least priority index of
any valid result in the list. -/
lemma pickByPriority_minimal (rs : List ImageProcessingResult)
    (r : ImageProcessingResult) (hval : ∀ x ∈ rs, x.isValid = true)
    (h : pickByPriority priorityOrder rs = some r) :
    ∀ x ∈ rs, priIdx r.processingMethod ≤ priIdx x.processingMethod := by
  intro x hx
  simp only [priorityOrder, pickByPriority] at h
  cases hfO : rs.find? (fun y =>
      decide (y.processingMethod = ProcessingMethod.original) && y.isValid)
    with
  | some a =>
      rw [hfO] at h
      injection h with h
      subst h
      rw [find?_some_method rs _ _ hfO]
      exact Nat.zero_le _
  | none =>
      rw [hfO] at h
      have hxO := find?_none_method rs _ x hx (hval x hx) hfO
      cases hfC : rs.find? (fun y =>
          decide (y.processingMethod = ProcessingMethod.converted) &&
            y.isValid) with
      | some a =>
          rw [hfC] at h
          injection h with h
          subst h
          rw [find?_some_method rs _ _ hfC]
          rcases method_cases x.processingMethod with hm | hm | hm | hm <;>
            first
              | exact absurd hm hxO
              | (rw [hm]; try decide)
      | none =>
          rw [hfC] at h
          have hxC := find?_none_method rs _ x hx (hval x hx) hfC
          cases hfP : rs.find? (fun y =>
              decide (y.processingMethod = ProcessingMethod.proxy) &&
                y.isValid) with
          | some a =>
              rw [hfP] at h
              injection h with h
              subst h
              rw [find?_some_method rs _ _ hfP]
              rcases method_cases x.processingMethod with hm | hm | hm | hm <;>
                first
                  | exact absurd hm hxO
                  | exact absurd hm hxC
                  | (rw [hm]; try decide)
          | none =>
              rw [hfP] at h
              have hxP := find?_none_method rs _ x hx (hval x hx) hfP
              cases hfF : rs.find? (fun y =>
                  decide (y.processingMethod = ProcessingMethod.fallback) &&
                    y.isValid) with
              | some a =>
                  rw [hfF] at h
                  injection h with h
                  subst h
                  rw [find?_some_method rs _ _ hfF]
                  rcases method_cases x.processingMethod with
                    hm | hm | hm | hm <;>
                    first
                      | exact absurd hm hxO
                      | exact absurd hm hxC
                      | exact absurd hm hxP
                      | (rw [hm]; try decide)
              | none => rw [hfF] at h; cases h

/-- On a nonempty list of valid results the priority scan always selects
something (every method occurs in the scanned order). -/
lemma pickByPriority_isSome (rs : List ImageProcessingResult)
    (hval : ∀ x ∈ rs, x.isValid = true) (hne : rs ≠ []) :
    ∃ r, pickByPriority priorityOrder rs = some r := by
  cases hp : pickByPriority priorityOrder rs with
  | some r => exact ⟨r, rfl⟩
  | none =>
      exfalso
      rcases rs with _ | ⟨x, t⟩
      · exact hne rfl
      · have hx : x ∈ x :: t := List.mem_cons_self _ _
        simp only [priorityOrder, pickByPriority] at hp
        cases hfO : (x :: t).find? (fun y =>
            decide (y.processingMethod = ProcessingMethod.original) &&
              y.isValid) with
        | some a => rw [hfO] at hp; cases hp
        | none =>
            rw [hfO] at hp
            cases hfC : (x :: t).find? (fun y =>
                decide (y.processingMethod = ProcessingMethod.converted) &&
                  y.isValid) with
            | some a => rw [hfC] at hp; cases hp
            | none =>
                rw [hfC] at hp
                cases hfP : (x :: t).find? (fun y =>
                    decide (y.processingMethod = ProcessingMethod.proxy) &&
                      y.isValid) with
                | some a => rw [hfP] at hp; cases hp
                | none =>
                    rw [hfP] at hp
                    cases hfF : (x :: t).find? (fun y =>
                        decide (y.processingMethod =
                          ProcessingMethod.fallback) && y.isValid) with
                    | some a => rw [hfF] at hp; cases hp
                    | none =>
                        have h1 := find?_none_method _ _ x hx
                          (hval x hx) hfO
                        have h2 := find?_none_method _ _ x hx
                          (hval x hx) hfC
                        have h3 := find?_none_method _ _ x hx
                          (hval x hx) hfP
                        have h4 := find?_none_method _ _ x hx
                          (hval x hx) hfF
                        rcases method_cases x.processingMethod with
                          hm | hm | hm | hm
                        · exact h1 hm
                        · exact h2 hm
                        · exact h3 hm
                        · exact h4 hm

/-- Claim C6: `getBestImageUrl` selects a result whose method is
highest-priority among all batch results (independent of position), and in
particular with one candidate resolving as `original` and one as `proxy`,
the `original` one is returned in either array order. -/
theorem claim6_priority_selection (u1 u2 : String) (b : Option String)
    (o : Oracle)
    (h1 : (processImageUrl u1 b o).processingMethod =
      ProcessingMethod.original)
    (h2 : (processImageUrl u2 b o).processingMethod =
      ProcessingMethod.proxy) :
    (∀ urls r, r ∈ processMultipleImageUrls urls b o →
      priIdx (getBestImageUrl urls b o).processingMethod ≤
        priIdx r.processingMethod) ∧
    getBestImageUrl [u1, u2] b o = processImageUrl u1 b o ∧
    getBestImageUrl [u2, u1] b o = processImageUrl u1 b o := by
  refine ⟨?_, ?_, ?_⟩
  · intro urls r hr
    unfold getBestImageUrl
    split
    · next hlen =>
        rw [List.length_eq_zero] at hlen
        subst hlen
        simp [processMultipleImageUrls] at hr
    · next hlen =>
        dsimp only
        cases hp : pickByPriority priorityOrder
            (processMultipleImageUrls urls b o) with
        | some rbest =>
            exact pickByPriority_minimal _ _
              (processMultiple_isValid urls b o) hp r hr
        | none =>
            exfalso
            have hne : processMultipleImageUrls urls b o ≠ [] := by
              intro hnil
              rw [hnil] at hr
              cases hr
            rcases pickByPriority_isSome _
              (processMultiple_isValid urls b o) hne with ⟨r0, hr0⟩
            rw [hp] at hr0
            cases hr0
  · simp [getBestImageUrl, processMultipleImageUrls, pickByPriority,
      priorityOrder, List.find?, h1, h2, processImageUrl_isValid]
  · simp [getBestImageUrl, processMultipleImageUrls, pickByPriority,
      priorityOrder, List.find?, h1, h2, processImageUrl_isValid]

/-- Witness for C6: a localhost candidate resolves as `original`, a second
candidate only through the proxy; the `original` one wins in both orders. -/
theorem claim6_witness :
    getBestImageUrl
        ["http://localhost:3000/a.png", "https://example.com/b.png"]
        none proxyOnly =
      processImageUrl "http://localhost:3000/a.png" none proxyOnly ∧
    getBestImageUrl
        ["https://example.com/b.png", "http://localhost:3000/a.png"]
        none proxyOnly =
      processImageUrl "http://localhost:3000/a.png" none proxyOnly :=
  ⟨(claim6_priority_selection "http://localhost:3000/a.png"
      "https://example.com/b.png" none proxyOnly (by decide)
      (by decide)).2.1,
   (claim6_priority_selection "http://localhost:3000/a.png"
      "https://example.com/b.png" none proxyOnly (by decide)
      (by decide)).2.2⟩

/-! ## Claim C1: well-formedness of every returned `processedUrl` -/

/-- A list none of whose elements satisfies `p` is untouched by
`dropWhile`. -/
lemma dropWhile_head_false {p : Char → Bool} :
    ∀ l : List Char, (∀ c ∈ l, p c = false) → l.dropWhile p = l := by
  intro l h
  cases l with
  | nil => rfl
  | cons c t =>
      rw [List.dropWhile_cons, h c (List.mem_cons_self _ _)]
      rfl

/-- Strings with no character at or below the space code point are untouched
by the URL input strip. -/
lemma urlStrip_id (l : List Char) (h : ∀ c ∈ l, 0x20 < c.toNat) :
    urlStrip l = l := by
  unfold urlStrip
  have hp : ∀ c ∈ l, (decide (c.toNat ≤ 0x20) : Bool) = false := by
    intro c hc
    have := h c hc
    simp only [decide_eq_false_iff_not]
    omega
  rw [dropWhile_head_false l hp,
    dropWhile_head_false l.reverse
      (fun c hc => hp c (List.mem_reverse.mp hc)),
    List.reverse_reverse]
  apply List.filter_eq_self.mpr
  intro c hc
  have := h c hc
  simp only [decide_eq_false_iff_not] at this
  simp only [Bool.not_eq_true']
  simp only [Bool.or_eq_false_iff, decide_eq_false_iff_not]
  omega

/-- A prefix of `a` is a prefix of `a ++ b`. -/
lemma isPre_append_left :
    ∀ t a b : List Char, isPre t a = true → isPre t (a ++ b) = true := by
  intro t
  induction t with
  | nil => intro a b h; rfl
  | cons c ts ih =>
      intro a b h
      cases a with
      | nil => simp [isPre] at h
      | cons d as =>
          simp only [isPre, List.cons_append, Bool.and_eq_true] at h ⊢
          exact ⟨h.1, ih as b h.2⟩

/-- `dropWhile` over an append whose left part is not fully dropped. -/
lemma dropWhile_append_stop {p : Char → Bool} :
    ∀ a b : List Char, a.dropWhile p ≠ [] →
      (a ++ b).dropWhile p = a.dropWhile p ++ b := by
  intro a
  induction a with
  | nil => intro b h; exact absurd rfl h
  | cons c t ih =>
      intro b h
      cases hp : p c with
      | true =>
          have h2 : t.dropWhile p ≠ [] := by
            intro hnil
            apply h
            simp [List.dropWhile_cons, hp, hnil]
          simp [List.cons_append, List.dropWhile_cons, hp, ih b h2]
      | false =>
          simp [List.cons_append, List.dropWhile_cons, hp]

/-- `takeWhile` over an append whose left part stops the scan. -/
lemma takeWhile_append_stop {p : Char → Bool} :
    ∀ a b : List Char, a.all p = false →
      (a ++ b).takeWhile p = a.takeWhile p := by
  intro a
  induction a with
  | nil => intro b h; simp at h
  | cons c t ih =>
      intro b h
      cases hp : p c with
      | false => simp [List.cons_append, List.takeWhile_cons, hp]
      | true =>
          have h2 : t.all p = false := by simpa [List.all_cons, hp] using h
          simp [List.cons_append, List.takeWhile_cons, hp, ih b h2]

/-- Hexadecimal digits are printable. -/
lemma hexDigit_gt (n : Nat) : 0x20 < (hexDigit n).toNat := by
  unfold hexDigit
  split <;> decide

/-- Percent-escapes contain only printable characters. -/
lemma pctByte_chars (b : Nat) : ∀ c ∈ pctByte b, 0x20 < c.toNat := by
  intro c hc
  simp only [pctByte, List.mem_cons, List.not_mem_nil, or_false] at hc
  rcases hc with rfl | rfl | rfl
  · decide
  · exact hexDigit_gt _
  · exact hexDigit_gt _

/-- Unreserved characters are printable. -/
lemma jsEncSafe_gt (c : Char) (h : jsEncSafe c = true) : 0x20 < c.toNat := by
  simp only [jsEncSafe, Bool.or_eq_true, Bool.and_eq_true,
    decide_eq_true_eq] at h
  rcases h with ((((((((((⟨h1, h2⟩ | ⟨h1, h2⟩) | ⟨h1, h2⟩) | rfl) | rfl) |
    rfl) | rfl) | rfl) | rfl) | rfl) | rfl) | rfl
  all_goals first | omega | decide

/-- Every character emitted by the `encodeURIComponent` model is
printable. -/
lemma encCore_chars : ∀ l : List Char, ∀ c ∈ encCore l, 0x20 < c.toNat := by
  intro l
  induction l with
  | nil => intro c hc; simp [encCore] at hc
  | cons d t ih =>
      intro c hc
      simp only [encCore] at hc
      rcases List.mem_append.mp hc with h | h
      · split at h
        · next hs =>
            rw [List.mem_singleton.mp h]
            exact jsEncSafe_gt d hs
        · next hs =>
            rcases List.mem_flatMap.mp h with ⟨bb, _, hb⟩
            exact pctByte_chars bb c hb
      · exact ih c h

/-- The character list of a proxy URL: fixed prefix, encoded original, fixed
suffix. -/
lemma createProxyUrl_toList (u : String) :
    (createProxyUrl u).toList =
      "https://images.weserv.nl/?url=".toList ++
        (encCore u.toList ++
          "&output=jpg&q=80&w=800&h=800&fit=inside".toList) := by
  simp [createProxyUrl, encodeURIComponent, String.toList, String.data_append]

/-- Any printable tail appended to the proxy service prefix yields a valid
URL: the scheme and authority are decided entirely inside the prefix. -/
lemma validCore_proxy_shape (T : List Char)
    (hT : ∀ c ∈ T, 0x20 < c.toNat) :
    validCore ("https://images.weserv.nl/?url=".toList ++ T) = true := by
  have hpfx : ∀ c ∈ "https://images.weserv.nl/?url=".toList,
      0x20 < c.toNat := by decide
  have hall : ∀ c ∈ ("https://images.weserv.nl/?url=".toList ++ T),
      0x20 < c.toNat := by
    intro c hc
    rcases List.mem_append.mp hc with h | h
    · exact hpfx c h
    · exact hT c h
  have hlow : isPre "https:".toList
      (("https://images.weserv.nl/?url=".toList ++ T).map Char.toLower)
      = true := by
    rw [List.map_append]
    apply isPre_append_left
    decide
  unfold validCore
  dsimp only
  rw [urlStrip_id _ hall, hlow, if_pos rfl]
  rw [List.drop_append_of_le_length (by decide)]
  unfold validAfterScheme
  dsimp only
  rw [dropWhile_append_stop _ _ (by decide),
    takeWhile_append_stop _ _ (by decide)]
  decide

/-- The proxy URL built for any original URL is well-formed. -/
lemma createProxyUrl_valid (u : String) :
    isValidUrl (createProxyUrl u) = true := by
  unfold isValidUrl
  rw [createProxyUrl_toList]
  apply validCore_proxy_shape
  intro c hc
  rcases List.mem_append.mp hc with h | h
  · exact encCore_chars _ c h
  · exact (by decide :
      ∀ c ∈ "&output=jpg&q=80&w=800&h=800&fit=inside".toList,
        0x20 < c.toNat) c h

/-- Fetching a malformed URL always throws, so the retry loop can never
declare it accessible. -/
lemma checkLoop_invalid (url : String) (o : Oracle)
    (h : validCore url.toList = false) :
    ∀ remaining attempt calls wait,
      (checkLoop url o remaining attempt calls wait).accessible = false := by
  intro remaining
  induction remaining with
  | zero => intro a c w; rfl
  | succ n ih =>
      intro a c w
      have hf : fetchModel url a o = FetchOutcome.threw := by
        unfold fetchModel
        rw [h]
        rfl
      unfold checkLoop
      rw [hf]
      dsimp only
      split
      · rfl
      · exact ih (a + 1) (c + 1) (w + 1000 * a)

/-- A URL the prober declares accessible is either local (the development
shortcut) or well-formed (a malformed URL would make every fetch throw). -/
lemma accessible_local_or_valid (url : String) (o : Oracle)
    (h : (checkImageAccessibility url o).accessible = true) :
    (stringIncludes url "localhost" ||
     stringIncludes url "127.0.0.1") = true ∨ isValidUrl url = true := by
  cases hl : (stringIncludes url "localhost" ||
      stringIncludes url "127.0.0.1") with
  | true => exact Or.inl rfl
  | false =>
      right
      rw [checkIA_not_local url o hl] at h
      cases hv : validCore url.toList with
      | true => exact hv
      | false =>
          rw [checkLoop_invalid url o hv MAX_RETRIES 1 0 0] at h
          simp at h

/-- The proxy and fallback steps always return a well-formed URL. -/
lemma proxyStep_sound (v : String) (o : Oracle) (c : Nat) :
    isValidUrl ((proxyStep v o c).1).processedUrl = true := by
  unfold proxyStep
  dsimp only
  split
  · exact createProxyUrl_valid v
  · show isValidUrl FALLBACK_IMAGE = true
    decide

/-- The Amazon step returns a well-formed URL, except possibly on the
converted path when the rewritten URL contains `localhost` or `127.0.0.1`
(where the prober skipped validation). -/
lemma amazonStep_sound (v : String) (o : Oracle) (c : Nat) :
    isValidUrl ((amazonStep v o c).1).processedUrl = true ∨
    (((amazonStep v o c).1).processingMethod = ProcessingMethod.converted ∧
     (stringIncludes ((amazonStep v o c).1).processedUrl "localhost" ||
      stringIncludes ((amazonStep v o c).1).processedUrl "127.0.0.1")
       = true) := by
  unfold amazonStep
  split
  · dsimp only
    split
    · split
      · next hacc =>
          rcases accessible_local_or_valid
              (transformAmazonImageUrl v) o hacc with hl | hv
          · exact Or.inr ⟨rfl, hl⟩
          · exact Or.inl hv
      · exact Or.inl (proxyStep_sound _ _ _)
    · exact Or.inl (proxyStep_sound _ _ _)
  · exact Or.inl (proxyStep_sound _ _ _)

/-- Every successful try block yields a well-formed URL or the guarded
converted case. -/
lemma tryBody_ok_sound (v : String) (o : Oracle)
    (rn : ImageProcessingResult × Nat) (h : tryBody v o = Except.ok rn) :
    isValidUrl (rn.1.processedUrl) = true ∨
    (rn.1.processingMethod = ProcessingMethod.converted ∧
     (stringIncludes rn.1.processedUrl "localhost" ||
      stringIncludes rn.1.processedUrl "127.0.0.1") = true) := by
  unfold tryBody at h
  split at h
  · cases h
  · next hvB =>
      have hv : isValidUrl v = true := by
        revert hvB
        cases isValidUrl v <;> simp
      dsimp only at h
      split at h
      · cases h
        exact Or.inl hv
      · cases h
        exact amazonStep_sound v o _

/-- Counterexample to claim C1 as stated: a well-formed Amazon-matching URL
whose rewrite manufactures the substring `localhost` (making the prober skip
validation) and an invalid port, so the returned `processedUrl` is
malformed. -/
theorem claim1_counterexample :
    isValidUrl "https://a._b/c_.amazon.com:localSY1_host/z" = true ∧
    (processImageUrl "https://a._b/c_.amazon.com:localSY1_host/z" none
        allFail).processedUrl = "https://a.amazon.com:localhost/z.jpg" ∧
    (processImageUrl "https://a._b/c_.amazon.com:localSY1_host/z" none
        allFail).processingMethod = ProcessingMethod.converted ∧
    isValidUrl
      (processImageUrl "https://a._b/c_.amazon.com:localSY1_host/z" none
        allFail).processedUrl = false := by
  exact ⟨by decide, by decide, by decide, by decide⟩

/-- Claim C1 amended: `processedUrl` is always non-empty, and it is a
well-formed absolute http(s) URL except possibly on the `converted` path
when the Amazon-rewritten URL contains `localhost` or `127.0.0.1`, where
the prober's local-development shortcut can let a malformed rewrite
through. -/
theorem claim1_processedUrl_wellformed (u : String) (b : Option String)
    (o : Oracle) :
    (processImageUrl u b o).processedUrl ≠ "" ∧
    (isValidUrl (processImageUrl u b o).processedUrl = true ∨
     ((processImageUrl u b o).processingMethod =
        ProcessingMethod.converted ∧
      (stringIncludes (processImageUrl u b o).processedUrl "localhost" ||
       stringIncludes (processImageUrl u b o).processedUrl "127.0.0.1")
        = true)) := by
  have hdisj : isValidUrl (processImageUrl u b o).processedUrl = true ∨
      ((processImageUrl u b o).processingMethod =
         ProcessingMethod.converted ∧
       (stringIncludes (processImageUrl u b o).processedUrl "localhost" ||
        stringIncludes (processImageUrl u b o).processedUrl "127.0.0.1")
         = true) := by
    unfold processImageUrl processImageUrlRun
    split
    · refine Or.inl ?_
      show isValidUrl FALLBACK_IMAGE = true
      decide
    · dsimp only
      split
      · next rn heq => exact tryBody_ok_sound _ _ _ heq
      · unfold catchBlock
        split
        · next hv => exact Or.inl hv
        · refine Or.inl ?_
          show isValidUrl FALLBACK_IMAGE = true
          decide
  refine ⟨?_, hdisj⟩
  rcases hdisj with hv | ⟨_, hl⟩
  · intro hemp
    rw [hemp] at hv
    exact absurd hv (by decide)
  · intro hemp
    rw [hemp] at hl
    exact absurd hl (by decide)

end ImgPipe
